import Mathlib

/-!
Verification of the detection-and-matching pipeline of smart_mouse.cpp.

The pipeline is embedded shallowly:
  * `cv::Rect` becomes `Rect` over `Int`.
  * `UIElement` keeps its four fields; the `type` tag stays a string
    ("text" / "button") as in the source.
  * C++ `float` arithmetic is modelled exactly over `ℚ` (all constants in
    the scorer — 0.9, 1.2, 0.7, 100, 0.3 — are small decimal literals).
  * External collaborators (Tesseract OCR, OpenCV edge/contour extraction,
    X11 capture and injection) are inputs of the embedded functions: the
    OCR word iterator becomes a `List OcrWord`, the contour extractor a
    `List (List (Int × Int))`, the per-crop OCR call a function
    `Rect → Option (List Char)`, and pointer side effects an explicit
    `List MouseAction` trace.
  * `std::string::find(needle) != npos` is contiguous-substring
    containment, i.e. `List.IsInfix` (note `find` of an empty needle
    returns 0, and the empty list is an infix of every list, so the two
    agree on empty strings); `find(char)` is membership.
  * `::tolower` is ASCII lower-casing, total on `Char`.
-/

namespace SmartMouse

/-- Model of `cv::Rect`: integer origin and extent. -/
structure Rect where
  x : Int
  y : Int
  width : Int
  height : Int
deriving DecidableEq

/-- Model of `struct UIElement` from smart_mouse.cpp. -/
structure UIElement where
  bounds : Rect
  text : List Char
  type : String
  confidence : ℚ
deriving DecidableEq

/-- Center point `UIElement::center()`: `(bounds.x + bounds.width/2, bounds.y + bounds.height/2)`. -/
def UIElement.center (e : UIElement) : Int × Int :=
  (e.bounds.x + e.bounds.width / 2, e.bounds.y + e.bounds.height / 2)

/-- ASCII `::tolower` on a character. -/
def toLowerChar (c : Char) : Char :=
  if 'A' ≤ c ∧ c ≤ 'Z' then Char.ofNat (c.toNat + 32) else c

/-- Lower-casing `std::transform(.., ::tolower)` over a whole string. -/
def strToLower (s : List Char) : List Char := s.map toLowerChar

/-- The loop `for (char c : a) if (b.find(c) != npos) matches++;`:
the number of characters of `a`, with repetition, that occur anywhere in `b`. -/
def countCharMatches (a b : List Char) : Nat :=
  (a.filter fun c => decide (c ∈ b)).length

/-- Model of `SmartVision::textSimilarity(a, b)`.  Lower-case both strings; if either
is a contiguous substring of the other return 0.9; otherwise return the
number of characters of `a` occurring in `b`, divided by the longer length. -/
def textSimilarity (a b : List Char) : ℚ :=
  let lowerA := strToLower a
  let lowerB := strToLower b
  if lowerB <:+: lowerA ∨ lowerA <:+: lowerB then 9/10
  else (countCharMatches lowerA lowerB : ℚ) / ((max lowerA.length lowerB.length : ℕ) : ℚ)

/-- The per-candidate final score computed inside `findBestMatch`:
`textSimilarity(elem.text, query)`, times 1.2 for buttons, times
`confidence / 100`. -/
def matchScore (query : List Char) (e : UIElement) : ℚ :=
  let base := textSimilarity e.text query
  let boosted := if e.type = "button" then base * (6/5) else base
  boosted * (e.confidence / 100)

/-- One iteration of the `findBestMatch` loop: update `(best, bestScore)`
when the current score is strictly larger. -/
def bestStep (query : List Char) (acc : Option UIElement × ℚ) (e : UIElement) :
    Option UIElement × ℚ :=
  if acc.2 < matchScore query e then (some e, matchScore query e) else acc

/-- Model of `SmartVision::findBestMatch`: scan the candidates keeping the first
strict maximum, then return it only when the best score exceeds 0.3. -/
def findBestMatch (elements : List UIElement) (query : List Char) : Option UIElement :=
  let r := elements.foldl (bestStep query) (none, 0)
  if (3 : ℚ)/10 < r.2 then r.1 else none

/-- One word yielded by the Tesseract result iterator: `GetUTF8Text` may
return null (`none`), plus confidence and the bounding-box corners. -/
structure OcrWord where
  text : Option (List Char)
  conf : ℚ
  x1 : Int
  y1 : Int
  x2 : Int
  y2 : Int
deriving DecidableEq

/-- Model of `SmartVision::detectTextRegions`: one Text element per word with
non-null text, bounds `(x1, y1, x2-x1, y2-y1)`, confidence as reported. -/
def detectTextRegions (words : List OcrWord) : List UIElement :=
  words.filterMap fun w =>
    w.text.map fun t =>
      { bounds := ⟨w.x1, w.y1, w.x2 - w.x1, w.y2 - w.y1⟩
        text := t
        type := "text"
        confidence := w.conf }

/-- Model of `cv::boundingRect` of a contour: the minimal up-right rectangle
containing all points (width `maxX - minX + 1`, height `maxY - minY + 1`);
the empty contour gives the empty rectangle. -/
def boundingRect : List (Int × Int) → Rect
  | [] => ⟨0, 0, 0, 0⟩
  | p :: ps =>
    let minX := (ps.map Prod.fst).foldl min p.1
    let maxX := (ps.map Prod.fst).foldl max p.1
    let minY := (ps.map Prod.snd).foldl min p.2
    let maxY := (ps.map Prod.snd).foldl max p.2
    ⟨minX, minY, maxX - minX + 1, maxY - minY + 1⟩

/-- The size/aspect filter of `detectButtonRegions`:
`width > 40 && width < 400 && height > 20 && height < 100 && width > height`. -/
def buttonFilter (r : Rect) : Bool :=
  decide (40 < r.width ∧ r.width < 400 ∧ 20 < r.height ∧ r.height < 100 ∧ r.height < r.width)

/-- Model of `SmartVision::detectButtonRegions`, parameterised by the contours the
OpenCV primitives (Canny, dilate, findContours) extract from the frame:
bounding rectangles of the outer contours, kept when `buttonFilter` holds. -/
def detectButtonRegions (contours : List (List (Int × Int))) : List Rect :=
  (contours.map boundingRect).filter buttonFilter

/-- The Button element built in `analyzeScreen` for one detected rectangle:
confidence fixed at the literal `0.7f`, text from the per-crop OCR call
(`GetUTF8Text`), left empty when that call returns null. -/
def mkButtonElement (cropText : Rect → Option (List Char)) (rect : Rect) : UIElement :=
  { bounds := rect
    text := (cropText rect).getD []
    type := "button"
    confidence := 7/10 }

/-- Model of `SmartVision::analyzeScreen`: all Text elements first (producer order),
then one Button element per filtered rectangle. -/
def analyzeScreen (words : List OcrWord) (contours : List (List (Int × Int)))
    (cropText : Rect → Option (List Char)) : List UIElement :=
  detectTextRegions words ++ (detectButtonRegions contours).map (mkButtonElement cropText)

/-- Pointer side effects issued through the injector. -/
inductive MouseAction where
  | move (x y : Int)
  | buttonDown (rightButton : Bool)
  | buttonUp (rightButton : Bool)
deriving DecidableEq

/-- Model of `ScreenController::click(x, y, rightClick)`: move the pointer, press,
release (the sleeps in between carry no observable state). -/
def clickActions (x y : Int) (rightClick : Bool) : List MouseAction :=
  [MouseAction.move x y, MouseAction.buttonDown rightClick, MouseAction.buttonUp rightClick]

/-- What one fresh screen capture yields to the analysis: the OCR word
stream, the extracted contours and the per-crop OCR oracle. -/
structure ScreenObservation where
  words : List OcrWord
  contours : List (List (Int × Int))
  cropText : Rect → Option (List Char)

/-- Model of `SmartMouse::clickOn(target, rightClick)`: refresh (capture + analyze),
run the scorer, and either click at the winner's center returning success,
or return failure with no pointer action. -/
def clickOn (obs : ScreenObservation) (target : List Char) (rightClick : Bool) :
    Bool × List MouseAction :=
  let lastElements := analyzeScreen obs.words obs.contours obs.cropText
  match findBestMatch lastElements target with
  | some elem => (true, clickActions elem.center.1 elem.center.2 rightClick)
  | none => (false, [])

/-- Spec-side similarity following claim C1's wording: the same similarity but
counting QUERY characters that occur in the candidate text, the direction
the spec states.  Kept separate from `textSimilarity`, which is translated
from the source and counts candidate-text characters found in the query. -/
def textSimilaritySpecC1 (candidateText query : List Char) : ℚ :=
  let lowerA := strToLower candidateText
  let lowerB := strToLower query
  if lowerB <:+: lowerA ∨ lowerA <:+: lowerB then 9/10
  else (countCharMatches lowerB lowerA : ℚ) / ((max lowerA.length lowerB.length : ℕ) : ℚ)

/-! ### Helper lemmas about the `findBestMatch` fold -/

/-- The running best score is the running maximum of the scores seen. -/
theorem foldBest_snd (q : List Char) (l : List UIElement) :
    ∀ acc : Option UIElement × ℚ,
      (l.foldl (bestStep q) acc).2 = l.foldl (fun m e => max m (matchScore q e)) acc.2 := by
  induction l with
  | nil => intro acc; rfl
  | cons x l ih =>
      intro acc
      have h1 : (bestStep q acc x).2 = max acc.2 (matchScore q x) := by
        unfold bestStep
        rcases lt_or_le acc.2 (matchScore q x) with h | h
        · rw [if_pos h]; exact (max_eq_right h.le).symm
        · rw [if_neg (not_lt.mpr h)]; exact (max_eq_left h).symm
      simp only [List.foldl_cons]
      rw [ih (bestStep q acc x), h1]

theorem foldMax_le_iff (q : List Char) (c : ℚ) (l : List UIElement) :
    ∀ a : ℚ, l.foldl (fun m e => max m (matchScore q e)) a ≤ c ↔
      a ≤ c ∧ ∀ e ∈ l, matchScore q e ≤ c := by
  induction l with
  | nil => intro a; simp
  | cons x l ih =>
      intro a
      simp only [List.foldl_cons, ih (max a (matchScore q x)), max_le_iff,
        List.forall_mem_cons]
      tauto

theorem foldMax_lt_iff (q : List Char) (c : ℚ) (l : List UIElement) :
    ∀ a : ℚ, l.foldl (fun m e => max m (matchScore q e)) a < c ↔
      a < c ∧ ∀ e ∈ l, matchScore q e < c := by
  induction l with
  | nil => intro a; simp
  | cons x l ih =>
      intro a
      simp only [List.foldl_cons, ih (max a (matchScore q x)), max_lt_iff,
        List.forall_mem_cons]
      tauto

/-- Invariant: whenever the accumulator holds a candidate, the second
component is exactly that candidate's score. -/
theorem foldBest_some_score (q : List Char) (l : List UIElement) :
    ∀ acc : Option UIElement × ℚ,
      (∀ x, acc.1 = some x → matchScore q x = acc.2) →
      ∀ x, (l.foldl (bestStep q) acc).1 = some x →
        matchScore q x = (l.foldl (bestStep q) acc).2 := by
  induction l with
  | nil => intro acc h x hx; exact h x hx
  | cons e l ih =>
      intro acc h x hx
      simp only [List.foldl_cons] at hx ⊢
      refine ih (bestStep q acc e) ?_ x hx
      intro y hy
      by_cases hc : acc.2 < matchScore q e
      · unfold bestStep at hy ⊢
        rw [if_pos hc] at hy ⊢
        simp only [Option.some.injEq] at hy
        rw [← hy]
      · unfold bestStep at hy ⊢
        rw [if_neg hc] at hy ⊢
        exact h y hy

/-- Any candidate held by the fold's accumulator came from the initial
accumulator or from the list. -/
theorem foldBest_mem (q : List Char) (l : List UIElement) :
    ∀ acc : Option UIElement × ℚ, ∀ x,
      (l.foldl (bestStep q) acc).1 = some x → acc.1 = some x ∨ x ∈ l := by
  induction l with
  | nil => intro acc x hx; exact Or.inl hx
  | cons e l ih =>
      intro acc x hx
      simp only [List.foldl_cons] at hx
      rcases ih (bestStep q acc e) x hx with h | h
      · unfold bestStep at h
        split at h
        · simp only [Option.some.injEq] at h
          exact Or.inr (by simp [h])
        · exact Or.inl h
      · exact Or.inr (List.mem_cons_of_mem e h)

/-- Invariant: if the fold never picked a candidate, the running best score
is still the initial zero. -/
theorem foldBest_none (q : List Char) (l : List UIElement) :
    ∀ acc : Option UIElement × ℚ,
      (acc.1 = none → acc.2 = 0) →
      (l.foldl (bestStep q) acc).1 = none → (l.foldl (bestStep q) acc).2 = 0 := by
  induction l with
  | nil => intro acc h hn; exact h hn
  | cons e l ih =>
      intro acc h hn
      simp only [List.foldl_cons] at hn ⊢
      refine ih (bestStep q acc e) ?_ hn
      intro hy
      by_cases hc : acc.2 < matchScore q e
      · unfold bestStep at hy
        rw [if_pos hc] at hy
        exact absurd hy (by simp)
      · unfold bestStep at hy ⊢
        rw [if_neg hc] at hy ⊢
        exact h hy

/-- If no score in the list beats the accumulator, the fold leaves the
accumulator untouched. -/
theorem foldBest_const (q : List Char) (l : List UIElement) :
    ∀ acc : Option UIElement × ℚ,
      (∀ e ∈ l, matchScore q e ≤ acc.2) → l.foldl (bestStep q) acc = acc := by
  induction l with
  | nil => intro acc _; rfl
  | cons x l ih =>
      intro acc h
      have hx : bestStep q acc x = acc := by
        unfold bestStep
        rw [if_neg (not_lt.mpr (h x (List.mem_cons_self x l)))]
      simp only [List.foldl_cons, hx]
      exact ih acc fun e he => h e (List.mem_cons_of_mem x he)

/-! ### Concrete candidates used by witnesses and counterexamples -/

/-- A Text candidate whose final score against the query "ok" is exactly
0.3: the substring branch gives 0.9 and 0.9 · (100/3)/100 = 3/10. -/
def candPoint3 : UIElement := ⟨⟨0, 0, 10, 10⟩, ['o', 'k'], "text", 100/3⟩

/-- Scores exactly 1/2 against the query "ad" (characters a∈, b∉). -/
def candTieA : UIElement := ⟨⟨0, 0, 10, 10⟩, ['a', 'b'], "text", 100⟩

/-- Scores exactly 1/2 against the query "ad" (characters a∈, x∉). -/
def candTieB : UIElement := ⟨⟨20, 0, 10, 10⟩, ['a', 'x'], "text", 100⟩

/-- A Text candidate for the empty-query scenario of C9. -/
def cand9 : UIElement := ⟨⟨1, 2, 30, 10⟩, ['S', 'a', 'v', 'e'], "text", 95⟩

/-- A contour whose bounding rectangle (50 × 30 at the origin) passes the
button filter. -/
def contours0 : List (List (Int × Int)) := [[(0, 0), (49, 29)]]

/-- The bounding rectangle of the contour in `contours0`. -/
def rect0 : Rect := ⟨0, 0, 50, 30⟩

/-- Candidate text "aa": its two characters both occur in the query "ab",
while only one query character occurs in "aa". -/
def candAA : UIElement := ⟨⟨0, 0, 10, 10⟩, ['a', 'a'], "text", 100⟩

/-- The Scenario-B candidate: empty text, kind Text, confidence 95. -/
def candEmptyText : UIElement := ⟨⟨0, 0, 10, 10⟩, [], "text", 95⟩

/-- A per-crop OCR oracle that always reads "ab". -/
def cropAB : Rect → Option (List Char) := fun _ => some ['a', 'b']

/-- A per-crop OCR oracle that never reads any text. -/
def cropNone : Rect → Option (List Char) := fun _ => none

/-- The Button candidate `analyzeScreen` builds from `contours0` and
`cropAB`: bounds 50 × 30, text "ab", confidence the literal 0.7. -/
def btnAB : UIElement := ⟨⟨0, 0, 50, 30⟩, ['a', 'b'], "button", 7/10⟩

/-- The Button candidate `analyzeScreen` builds from `contours0` and
`cropNone`: same bounds, empty text. -/
def btnEmpty : UIElement := ⟨⟨0, 0, 50, 30⟩, [], "button", 7/10⟩

/-- An OCR word stream with a single well-bounded word "Save". -/
def wordsW : List OcrWord := [⟨some ['S', 'a', 'v', 'e'], 95, 0, 0, 10, 10⟩]

/-- The Text candidate `detectTextRegions` builds from `wordsW`. -/
def textElemW : UIElement := ⟨⟨0, 0, 10, 10⟩, ['S', 'a', 'v', 'e'], "text", 95⟩

/-- An OCR word stream whose single word has a degenerate box (x2 = x1). -/
def wordsC6 : List OcrWord := [⟨some ['h', 'i'], 95, 5, 5, 5, 9⟩]

/-- The zero-width Text candidate built from `wordsC6`. -/
def zeroWidthElem : UIElement := ⟨⟨5, 5, 0, 4⟩, ['h', 'i'], "text", 95⟩

/-- The observation carrying `wordsW` and nothing else. -/
def obsW : ScreenObservation := ⟨wordsW, [], cropNone⟩

/-! ### Bounds on `textSimilarity` -/

theorem strToLower_length (s : List Char) : (strToLower s).length = s.length :=
  List.length_map s toLowerChar

theorem countCharMatches_le (a b : List Char) : countCharMatches a b ≤ a.length :=
  List.length_filter_le _ a

/-- In the division branch, at least one lower-cased string is non-empty
(two empty strings satisfy the substring test), so the denominator is
positive. -/
theorem textSimilarity_denom_pos (a b : List Char)
    (h : ¬(strToLower b <:+: strToLower a ∨ strToLower a <:+: strToLower b)) :
    0 < max (strToLower a).length (strToLower b).length := by
  by_contra hc
  push_neg at hc
  rcases Nat.max_le.mp (Nat.le_of_lt_succ (Nat.lt_succ_of_le hc)) with ⟨ha, hb⟩
  have ha0 : strToLower a = [] := List.eq_nil_of_length_eq_zero (Nat.le_zero.mp ha)
  have hb0 : strToLower b = [] := List.eq_nil_of_length_eq_zero (Nat.le_zero.mp hb)
  rw [ha0, hb0] at h
  exact h (Or.inl ⟨[], [], rfl⟩)

theorem textSimilarity_nonneg (a b : List Char) : 0 ≤ textSimilarity a b := by
  simp only [textSimilarity]
  split
  · norm_num
  · exact div_nonneg (Nat.cast_nonneg _) (Nat.cast_nonneg _)

theorem textSimilarity_le_one (a b : List Char) : textSimilarity a b ≤ 1 := by
  simp only [textSimilarity]
  split
  · norm_num
  · rename_i h
    have hpos := textSimilarity_denom_pos a b h
    rw [div_le_one (by exact_mod_cast hpos)]
    have hle : countCharMatches (strToLower a) (strToLower b)
        ≤ max (strToLower a).length (strToLower b).length :=
      le_trans (countCharMatches_le _ _) (le_max_left _ _)
    exact_mod_cast hle

/-- The empty query lower-cases to the empty string, which is an infix of
every string, so the substring branch fires. -/
theorem textSimilarity_empty_right (t : List Char) : textSimilarity t [] = 9/10 := by
  simp only [textSimilarity]
  rw [if_pos (Or.inl ⟨[], strToLower t, rfl⟩)]

/-! ### Claim theorems -/

/-- C4: `findBestMatch` returns no match whenever every candidate's final
score is ≤ 0.3 (so the maximal score, in particular one of exactly 0.3, is
rejected — an absolute floor), and whenever some candidate's final score
is > 0.3 and maximal it returns a candidate of the set attaining exactly
that maximal score. -/
theorem C4_threshold_floor (elems : List UIElement) (q : List Char) :
    ((∀ e ∈ elems, matchScore q e ≤ 3/10) → findBestMatch elems q = none) ∧
    (∀ e ∈ elems, 3/10 < matchScore q e →
      (∀ x ∈ elems, matchScore q x ≤ matchScore q e) →
      ∃ w, findBestMatch elems q = some w ∧ w ∈ elems ∧
        matchScore q w = matchScore q e) := by
  constructor
  · intro h
    have h2 : (elems.foldl (bestStep q) (none, 0)).2 ≤ 3/10 := by
      rw [foldBest_snd]
      exact (foldMax_le_iff q (3/10) elems 0).mpr ⟨by norm_num, h⟩
    simp only [findBestMatch]
    rw [if_neg (not_lt.mpr h2)]
  · intro e he hthr hmax
    have h0 : (0:ℚ) < matchScore q e := lt_trans (by norm_num) hthr
    have hle : (elems.foldl (bestStep q) (none, 0)).2 ≤ matchScore q e := by
      rw [foldBest_snd]
      exact (foldMax_le_iff q _ elems 0).mpr ⟨h0.le, hmax⟩
    have hge : matchScore q e ≤ (elems.foldl (bestStep q) (none, 0)).2 := by
      rw [foldBest_snd]
      exact ((foldMax_le_iff q _ elems 0).mp le_rfl).2 e he
    have heq : (elems.foldl (bestStep q) (none, 0)).2 = matchScore q e :=
      le_antisymm hle hge
    cases hw : (elems.foldl (bestStep q) (none, 0)).1 with
    | none =>
        exfalso
        have hz := foldBest_none q elems (none, 0) (fun _ => rfl) hw
        rw [heq] at hz
        exact absurd hz (ne_of_gt h0)
    | some w =>
        have hsc : matchScore q w = (elems.foldl (bestStep q) (none, 0)).2 :=
          foldBest_some_score q elems (none, 0) (fun x hx => Option.noConfusion hx) w hw
        refine ⟨w, ?_, ?_, hsc.trans heq⟩
        · simp only [findBestMatch]
          rw [if_pos (by rw [heq]; exact hthr)]
          exact hw
        · rcases foldBest_mem q elems (none, 0) w hw with h | h
          · exact Option.noConfusion h
          · exact h

/-- Witness for C4: a lone candidate whose final score is exactly 0.3
(text "ok", confidence 100/3, query "ok") is rejected. -/
theorem C4_threshold_floor_witness : findBestMatch [candPoint3] ['o', 'k'] = none := by
  apply (C4_threshold_floor [candPoint3] ['o', 'k']).1
  intro e he
  simp only [List.mem_singleton] at he
  subst he
  simp +decide [matchScore, textSimilarity, strToLower, toLowerChar, candPoint3]
  norm_num

/-- C5: with a strictly-highest final score the unique maximum wins, and on
an exact tie above the threshold the candidate appearing earlier in the
sequence wins: if every element before `A` scores strictly below `A`,
`B` ties with `A` exactly, and nothing else beats `A`, the result is `A`. -/
theorem C5_tie_first_wins (q : List Char) (l₁ l₂ l₃ : List UIElement) (A B : UIElement)
    (hthr : 3/10 < matchScore q A)
    (hB : matchScore q B = matchScore q A)
    (hpre : ∀ e ∈ l₁, matchScore q e < matchScore q A)
    (hrest : ∀ e ∈ l₂ ++ l₃, matchScore q e ≤ matchScore q A) :
    findBestMatch (l₁ ++ A :: (l₂ ++ B :: l₃)) q = some A := by
  have h0 : (0:ℚ) < matchScore q A := lt_trans (by norm_num) hthr
  have hacc1 : (l₁.foldl (bestStep q) (none, 0)).2 < matchScore q A := by
    rw [foldBest_snd]
    exact (foldMax_lt_iff q _ l₁ 0).mpr ⟨h0, hpre⟩
  have hsplit : (l₁ ++ A :: (l₂ ++ B :: l₃)).foldl (bestStep q) (none, 0)
      = (l₂ ++ B :: l₃).foldl (bestStep q)
          (bestStep q (l₁.foldl (bestStep q) (none, 0)) A) := by
    rw [List.foldl_append, List.foldl_cons]
  have hstep : ∀ acc : Option UIElement × ℚ, acc.2 < matchScore q A →
      bestStep q acc A = (some A, matchScore q A) := by
    intro acc hacc
    unfold bestStep
    rw [if_pos hacc]
  have hA : bestStep q (l₁.foldl (bestStep q) (none, 0)) A
      = (some A, matchScore q A) := hstep _ hacc1
  have hconst : (l₂ ++ B :: l₃).foldl (bestStep q) (some A, matchScore q A)
      = (some A, matchScore q A) := by
    apply foldBest_const
    intro e he
    rcases List.mem_append.mp he with h | h
    · exact hrest e (List.mem_append.mpr (Or.inl h))
    · rcases List.mem_cons.mp h with h | h
      · rw [h, hB]
      · exact hrest e (List.mem_append.mpr (Or.inr h))
  simp only [findBestMatch, hsplit, hA, hconst]
  rw [if_pos hthr]

/-- Witness for C5, Scenario C: two candidates both scoring exactly 1/2
against "ad", in order [A, B]; A is returned. -/
theorem C5_tie_first_wins_witness :
    findBestMatch [candTieA, candTieB] ['a', 'd'] = some candTieA := by
  have h := C5_tie_first_wins ['a', 'd'] [] [] [] candTieA candTieB
    (by simp +decide [matchScore, textSimilarity, strToLower, toLowerChar,
          countCharMatches, candTieA]
        norm_num)
    (by simp +decide [matchScore, textSimilarity, strToLower, toLowerChar,
          countCharMatches, candTieA, candTieB])
    (by intro e he; exact absurd he (List.not_mem_nil e))
    (by intro e he; exact absurd he (List.not_mem_nil e))
  simpa using h

/-- C10: `textSimilarity` is total with result in [0, 1]: the
character-overlap count never exceeds the longer length, and the division
branch is reached only with a positive denominator (two empty strings take
the 0.9 substring branch), so division by zero is unreachable. -/
theorem C10_similarity_total (a b : List Char) :
    (0 ≤ textSimilarity a b ∧ textSimilarity a b ≤ 1) ∧
    countCharMatches (strToLower a) (strToLower b) ≤ max a.length b.length ∧
    (¬(strToLower b <:+: strToLower a ∨ strToLower a <:+: strToLower b) →
      0 < max (strToLower a).length (strToLower b).length) := by
  refine ⟨⟨textSimilarity_nonneg a b, textSimilarity_le_one a b⟩, ?_,
    textSimilarity_denom_pos a b⟩
  have h := countCharMatches_le (strToLower a) (strToLower b)
  rw [strToLower_length] at h
  exact le_trans h (le_max_left _ _)

/-- Witness for C10 at the substring-free pair "ab" / "cd": the denominator
of the division branch is positive there. -/
theorem C10_similarity_total_witness :
    0 < max (strToLower ['a', 'b']).length (strToLower ['c', 'd']).length :=
  (C10_similarity_total ['a', 'b'] ['c', 'd']).2.2 (by decide)

/-- C9: an empty query is a substring of every candidate text, so
`textSimilarity t "" = 0.9` for every `t`; hence any Text candidate with
confidence above 100/3 scores above 0.3 against the empty query, and
`findBestMatch` can return a match for the empty query. -/
theorem C9_empty_query :
    (∀ t, textSimilarity t [] = 9/10) ∧
    (∀ e : UIElement, e.type = "text" → (100:ℚ)/3 < e.confidence →
      3/10 < matchScore [] e) ∧
    findBestMatch [cand9] [] = some cand9 := by
  refine ⟨textSimilarity_empty_right, ?_, ?_⟩
  · intro e htype hconf
    simp only [matchScore]
    rw [htype, if_neg (by decide), textSimilarity_empty_right]
    nlinarith
  · simp +decide [findBestMatch, bestStep, matchScore, textSimilarity, strToLower,
      toLowerChar, cand9]
    norm_num

/-- Witness for C9: the Text candidate `cand9` (confidence 95 > 100/3)
clears the threshold against the empty query. -/
theorem C9_empty_query_witness : (3:ℚ)/10 < matchScore [] cand9 :=
  C9_empty_query.2.1 cand9 rfl (by norm_num [cand9])

/-- The size/aspect filter, read off a membership in the Region Detector's
output. -/
theorem mem_detectButtonRegions_bounds (contours : List (List (Int × Int))) (r : Rect)
    (h : r ∈ detectButtonRegions contours) :
    40 < r.width ∧ r.width < 400 ∧ 20 < r.height ∧ r.height < 100 ∧
      r.height < r.width := by
  unfold detectButtonRegions at h
  have hb : buttonFilter r = true := List.of_mem_filter h
  unfold buttonFilter at hb
  exact of_decide_eq_true hb

/-- C7: every rectangle returned by the Region Detector satisfies
40 < width < 400, 20 < height < 100 and width > height, for every contour
set the vision primitives produce. -/
theorem C7_region_filter (contours : List (List (Int × Int))) (r : Rect)
    (h : r ∈ detectButtonRegions contours) :
    40 < r.width ∧ r.width < 400 ∧ 20 < r.height ∧ r.height < 100 ∧
      r.height < r.width :=
  mem_detectButtonRegions_bounds contours r h

/-- Witness for C7: the 50 × 30 bounding box of the concrete contour is
returned and satisfies all filter bounds. -/
theorem C7_region_filter_witness :
    rect0 ∈ detectButtonRegions contours0 ∧
    (40 < rect0.width ∧ rect0.width < 400 ∧ 20 < rect0.height ∧
      rect0.height < 100 ∧ rect0.height < rect0.width) :=
  ⟨by decide, C7_region_filter contours0 rect0 (by decide)⟩

/-! ### Structure of the synthesizer's output and of a returned match -/

/-- Every element of `detectTextRegions` comes from a word with non-null
text, carrying the word's box and confidence and the tag "text". -/
theorem mem_detectTextRegions (words : List OcrWord) (e : UIElement)
    (h : e ∈ detectTextRegions words) :
    ∃ w ∈ words, ∃ t, w.text = some t ∧
      e = ⟨⟨w.x1, w.y1, w.x2 - w.x1, w.y2 - w.y1⟩, t, "text", w.conf⟩ := by
  simp only [detectTextRegions, List.mem_filterMap] at h
  obtain ⟨w, hw, hmap⟩ := h
  rcases Option.map_eq_some'.mp hmap with ⟨t, ht, he⟩
  exact ⟨w, hw, t, ht, he.symm⟩

/-- Case analysis on a synthesizer output: either a Text element from the
word stream or a Button element from a filtered rectangle. -/
theorem mem_analyzeScreen (words : List OcrWord) (contours : List (List (Int × Int)))
    (cropText : Rect → Option (List Char)) (e : UIElement)
    (h : e ∈ analyzeScreen words contours cropText) :
    e ∈ detectTextRegions words ∨
      ∃ r ∈ detectButtonRegions contours, e = mkButtonElement cropText r := by
  rcases List.mem_append.mp h with h | h
  · exact Or.inl h
  · rcases List.mem_map.mp h with ⟨r, hr, he⟩
    exact Or.inr ⟨r, hr, he.symm⟩

/-- Every Button element the synthesizer emits has confidence exactly the
literal 0.7. -/
theorem analyzeScreen_button_confidence (words : List OcrWord)
    (contours : List (List (Int × Int))) (cropText : Rect → Option (List Char))
    (e : UIElement) (h : e ∈ analyzeScreen words contours cropText)
    (hbtn : e.type = "button") : e.confidence = 7/10 := by
  rcases mem_analyzeScreen words contours cropText e h with h | ⟨r, _, he⟩
  · rcases mem_detectTextRegions words e h with ⟨w, _, t, _, he⟩
    rw [he] at hbtn
    simp at hbtn
  · rw [he]
    rfl

/-- A Button candidate with the synthesizer's 0.7 confidence scores at most
1.2 · 0.7/100 = 21/2500, whatever its text and the query. -/
theorem button_score_le (q : List Char) (e : UIElement) (hbtn : e.type = "button")
    (hconf : e.confidence = 7/10) : matchScore q e ≤ 21/2500 := by
  simp only [matchScore]
  rw [if_pos hbtn, hconf]
  have h1 := textSimilarity_le_one e.text q
  have h0 := textSimilarity_nonneg e.text q
  nlinarith

/-- A returned match is a member of the candidate list and its final score
exceeds the 0.3 threshold. -/
theorem findBestMatch_some (l : List UIElement) (q : List Char) (e : UIElement)
    (h : findBestMatch l q = some e) : e ∈ l ∧ 3/10 < matchScore q e := by
  simp only [findBestMatch] at h
  by_cases hc : (3:ℚ)/10 < (l.foldl (bestStep q) (none, 0)).2
  · rw [if_pos hc] at h
    have hsc := foldBest_some_score q l (none, 0) (fun x hx => Option.noConfusion hx) e h
    have hmem : e ∈ l := by
      rcases foldBest_mem q l (none, 0) e h with h | h
      · exact Option.noConfusion h
      · exact h
    exact ⟨hmem, by rw [hsc]; exact hc⟩
  · rw [if_neg hc] at h
    exact Option.noConfusion h

/-- C1 counterexample: on candidate text "aa" and query "ab" (no substring
either way) the code scores 1 — both candidate characters occur in the
query — while the claim's formula (query characters occurring in the
candidate text) gives 1/2; with confidence 100 and kind Text the final
score is 1, not the claimed 1/2. -/
theorem C1_count_direction_counterexample :
    textSimilarity ['a', 'a'] ['a', 'b'] = 1 ∧
    textSimilaritySpecC1 ['a', 'a'] ['a', 'b'] = 1/2 ∧
    matchScore ['a', 'b'] candAA = 1 := by
  refine ⟨?_, ?_, ?_⟩
  · simp +decide [textSimilarity, strToLower, toLowerChar, countCharMatches]
  · simp +decide [textSimilaritySpecC1, strToLower, toLowerChar, countCharMatches]
  · simp +decide [matchScore, textSimilarity, strToLower, toLowerChar, countCharMatches,
      candAA]

/-- C1 amended: the per-candidate score is computed as the claim states
except for the direction of the character count — the base score counts
CANDIDATE-TEXT characters, with repetition, that occur anywhere in the
query, divided by max of the two lengths; substring either way still gives
0.9, and the Button 1.2 and confidence/100 multipliers apply as claimed. -/
theorem C1_per_candidate_score (e : UIElement) (q : List Char) :
    matchScore q e =
      (if strToLower q <:+: strToLower e.text ∨ strToLower e.text <:+: strToLower q
        then (9:ℚ)/10
        else (((strToLower e.text).filter fun c => decide (c ∈ strToLower q)).length : ℚ) /
          ((max (strToLower e.text).length (strToLower q).length : ℕ) : ℚ))
      * (if e.type = "button" then (6:ℚ)/5 else 1)
      * (e.confidence / 100) := by
  simp only [matchScore, textSimilarity, countCharMatches]
  by_cases hb : e.type = "button"
  · simp only [hb, if_pos]
  · rw [if_neg hb, if_neg hb]
    ring

/-- C2 counterexample: the empty candidate text is found as a substring of
the query "OK" (`find` of an empty needle succeeds), so the base score is
0.9, not the claimed 0; with confidence 95 the candidate is eligible and
is returned. -/
theorem C2_empty_text_counterexample :
    textSimilarity [] ['O', 'K'] = 9/10 ∧
    findBestMatch [candEmptyText] ['O', 'K'] = some candEmptyText := by
  constructor
  · simp +decide [textSimilarity, strToLower, toLowerChar]
  · simp +decide [findBestMatch, bestStep, matchScore, textSimilarity, strToLower,
      toLowerChar, candEmptyText]
    norm_num

/-- C2 amended: a candidate with empty text takes the substring branch for
EVERY query (base 0.9); at kind Text and confidence 95 its final score is
0.855 > 0.3, so it is eligible and is returned when it is the only
candidate — the multipliers do not rescue the claim. -/
theorem C2_empty_text_eligible (q : List Char) :
    textSimilarity [] q = 9/10 ∧
    matchScore q candEmptyText = 171/200 ∧
    findBestMatch [candEmptyText] q = some candEmptyText := by
  have h1 : textSimilarity [] q = 9/10 := by
    simp only [textSimilarity]
    rw [if_pos (Or.inr ⟨[], strToLower q, rfl⟩)]
  have h2 : matchScore q candEmptyText = 171/200 := by
    simp only [matchScore, candEmptyText]
    rw [if_neg (by decide), h1]
    norm_num
  refine ⟨h1, h2, ?_⟩
  simp only [findBestMatch, List.foldl_cons, List.foldl_nil, bestStep, h2]
  norm_num

/-- C3 counterexample: a synthesizer-produced Button candidate (from a
50 × 30 contour box whose crop OCR reads "ab") scores 1 · 1.2 · 0.007 =
0.0084 against the query "ba" — above the claimed bound 0.00756. -/
theorem C3_bound_counterexample :
    analyzeScreen [] contours0 cropAB = [btnAB] ∧
    matchScore ['b', 'a'] btnAB = 21/2500 ∧
    ¬(matchScore ['b', 'a'] btnAB ≤ 189/25000) := by
  have h2 : matchScore ['b', 'a'] btnAB = 21/2500 := by
    simp +decide [matchScore, textSimilarity, strToLower, toLowerChar, countCharMatches,
      btnAB]
    norm_num
  refine ⟨?_, h2, by rw [h2]; norm_num⟩
  simp +decide [analyzeScreen, detectTextRegions, detectButtonRegions, boundingRect,
    buttonFilter, mkButtonElement, contours0, cropAB, btnAB]

/-- C3 amended: every synthesizer-produced Button candidate carries
confidence 0.7 (divided by 100 in the scorer), so its final score is at
most 1.2 · 0.7/100 = 0.0084 — the claim's 0.00756 bound assumed a base
score of at most 0.9, but the overlap branch can reach 1 — which is still
below the 0.3 threshold; hence `findBestMatch` never returns a Button
candidate from a synthesizer-produced candidate set. -/
theorem C3_button_never_wins (words : List OcrWord)
    (contours : List (List (Int × Int))) (cropText : Rect → Option (List Char))
    (q : List Char) (e : UIElement)
    (hwin : findBestMatch (analyzeScreen words contours cropText) q = some e) :
    e.type ≠ "button" ∧
    ∀ b ∈ analyzeScreen words contours cropText, b.type = "button" →
      b.confidence = 7/10 ∧ matchScore q b ≤ 21/2500 := by
  have hbtn : ∀ b ∈ analyzeScreen words contours cropText, b.type = "button" →
      b.confidence = 7/10 ∧ matchScore q b ≤ 21/2500 := by
    intro b hb hb2
    have hc := analyzeScreen_button_confidence words contours cropText b hb hb2
    exact ⟨hc, button_score_le q b hb2 hc⟩
  refine ⟨?_, hbtn⟩
  intro htype
  obtain ⟨hmem, hscore⟩ := findBestMatch_some _ q e hwin
  have hle := (hbtn e hmem htype).2
  linarith

/-- Witness for C3: on the word stream `wordsW` the winner for the query
"save" is the Text candidate `textElemW`, whose kind is not Button. -/
theorem C3_button_never_wins_witness : textElemW.type ≠ "button" :=
  (C3_button_never_wins wordsW [] cropNone ['s', 'a', 'v', 'e'] textElemW (by
    simp +decide [analyzeScreen, detectTextRegions, detectButtonRegions, mkButtonElement,
      wordsW, cropNone, findBestMatch, bestStep, matchScore, textSimilarity, strToLower,
      toLowerChar, textElemW]
    norm_num)).1

/-- C6 counterexample: an OCR result whose word box is degenerate
(x2 = x1) yields a Text candidate with width 0 that the synthesizer emits
anyway — zero-area candidates are not discarded. -/
theorem C6_zero_area_counterexample :
    analyzeScreen wordsC6 [] cropNone = [zeroWidthElem] ∧
    zeroWidthElem.bounds.width = 0 := by
  constructor
  · simp [analyzeScreen, detectTextRegions, detectButtonRegions, wordsC6, zeroWidthElem]
  · rfl

/-- C6 amended: every BUTTON candidate emitted by the synthesizer has
strictly positive width and height (the region filter guarantees it);
Text candidates carry the OCR-reported box unchecked, so all candidates
have strictly positive bounds only under the assumption that every OCR
word box is non-degenerate (x1 < x2 and y1 < y2). -/
theorem C6_emitted_bounds (words : List OcrWord)
    (contours : List (List (Int × Int))) (cropText : Rect → Option (List Char)) :
    (∀ e ∈ analyzeScreen words contours cropText, e.type = "button" →
      0 < e.bounds.width ∧ 0 < e.bounds.height) ∧
    ((∀ w ∈ words, w.x1 < w.x2 ∧ w.y1 < w.y2) →
      ∀ e ∈ analyzeScreen words contours cropText,
        0 < e.bounds.width ∧ 0 < e.bounds.height) := by
  have hbutton : ∀ r ∈ detectButtonRegions contours, ∀ f : Rect → Option (List Char),
      0 < (mkButtonElement f r).bounds.width ∧ 0 < (mkButtonElement f r).bounds.height := by
    intro r hr f
    have hfilt := mem_detectButtonRegions_bounds contours r hr
    exact ⟨lt_trans (by norm_num) hfilt.1, lt_trans (by norm_num) hfilt.2.2.1⟩
  constructor
  · intro e he hbtn
    rcases mem_analyzeScreen words contours cropText e he with h | ⟨r, hr, hrfl⟩
    · rcases mem_detectTextRegions words e h with ⟨w, _, t, _, hrfl⟩
      rw [hrfl] at hbtn
      simp at hbtn
    · rw [hrfl]
      exact hbutton r hr cropText
  · intro hocr e he
    rcases mem_analyzeScreen words contours cropText e he with h | ⟨r, hr, hrfl⟩
    · rcases mem_detectTextRegions words e h with ⟨w, hw, t, _, hrfl⟩
      rw [hrfl]
      exact ⟨Int.sub_pos.mpr (hocr w hw).1, Int.sub_pos.mpr (hocr w hw).2⟩
    · rw [hrfl]
      exact hbutton r hr cropText

/-- Witness for C6: the Button candidate built from the 50 × 30 contour box
has strictly positive bounds. -/
theorem C6_emitted_bounds_witness :
    0 < btnEmpty.bounds.width ∧ 0 < btnEmpty.bounds.height :=
  (C6_emitted_bounds [] contours0 cropNone).1 btnEmpty
    (by simp +decide [analyzeScreen, detectTextRegions, detectButtonRegions, boundingRect,
          buttonFilter, mkButtonElement, contours0, cropNone, btnEmpty])
    rfl

/-- C8: `clickOn` analyzes a fresh observation and runs the Match Scorer on
its output; on no-match it returns failure with no pointer action, and on a
match it returns success after moving to the winner's center
(x + width/2, y + height/2) and pressing/releasing the requested button. -/
theorem C8_clickOn_behavior (obs : ScreenObservation) (target : List Char)
    (rightClick : Bool) :
    (findBestMatch (analyzeScreen obs.words obs.contours obs.cropText) target = none →
      clickOn obs target rightClick = (false, [])) ∧
    (∀ e, findBestMatch (analyzeScreen obs.words obs.contours obs.cropText) target = some e →
      clickOn obs target rightClick =
        (true, [MouseAction.move (e.bounds.x + e.bounds.width / 2)
                  (e.bounds.y + e.bounds.height / 2),
                MouseAction.buttonDown rightClick, MouseAction.buttonUp rightClick])) := by
  constructor
  · intro h
    simp only [clickOn, h]
  · intro e h
    simp only [clickOn, h, clickActions, UIElement.center]

/-- Witness for C8: on the observation `obsW` the query "save" matches the
Text candidate `textElemW`, and `clickOn` moves to its center (5, 5) and
left-clicks. -/
theorem C8_clickOn_behavior_witness :
    clickOn obsW ['s', 'a', 'v', 'e'] false =
      (true, [MouseAction.move 5 5, MouseAction.buttonDown false,
              MouseAction.buttonUp false]) := by
  have h := (C8_clickOn_behavior obsW ['s', 'a', 'v', 'e'] false).2 textElemW (by
    simp +decide [obsW, analyzeScreen, detectTextRegions, detectButtonRegions,
      mkButtonElement, wordsW, cropNone, findBestMatch, bestStep, matchScore,
      textSimilarity, strToLower, toLowerChar, textElemW]
    norm_num)
  simpa [textElemW] using h

end SmartMouse
